import Mathlib

/-!
Shallow embedding of the core of the aws-xray-yasdk-go repository:
the centralized sampling strategy (xray/sampling/centralized_strategy.go),
the AWS-client instrumentation handlers (xrayaws / xrayaws-v2), the
whitelist descriptor extraction, and the generated response-writer
capability fan-out (xrayhttp/wrap.go).

Go pointers to `centralizedQuota` objects are modelled by indices into an
explicit heap (`Heap`), so that Go pointer equality becomes index equality
and mutation of a shared quota becomes an update of the heap slot.
Go maps are modelled as association lists with overwrite-insert semantics.
-/

set_option maxHeartbeats 1000000

namespace XRaySDK

/-! ## Sampling data model (xray/sampling/centralized_strategy.go) -/

/-- Source: `const manifestTTL = 3600 // Seconds`.  This constant is declared
in centralized_strategy.go but is referenced nowhere else in the package. -/
def manifestTTL : Int := 3600

/-- Modelled from the spec: the `sampling.Request` type is not in src/; per
spec §4.F a rule matches on host, URL path, HTTP method, service name and
service type. -/
structure Request where
  host : String
  url : String
  method : String
  serviceName : String
  serviceType : String
deriving DecidableEq, Repr

/-- Modelled from the spec: "Decisions are opaque records carrying
{sampled: bool, rule-name: string} for diagnostics" (§4.E). -/
structure Decision where
  sampled : Bool
  ruleName : Option String
deriving DecidableEq, Repr

/-- The `centralizedQuota` struct (its file is not in src/; the field set
`fixedRate, quota, ttl, requests, borrowed, sampled` is fixed by the tests
in TestCentralizedStrategy_refreshQuota, and the per-second token-bucket
fields `currentEpoch, used, borrowedEpoch` are modelled from spec §4.F).
`fixedRate` is a float64 in Go; the values the code and tests exchange
(0, 0.5, 1.0) are exactly representable, so we use rationals. -/
structure centralizedQuota where
  fixedRate : ℚ := 0
  quota : Int := 0
  ttl : Int := 0
  requests : Int := 0
  sampled : Int := 0
  borrowed : Int := 0
  currentEpoch : Int := 0
  used : Int := 0
  borrowedEpoch : Bool := false
deriving DecidableEq, Repr

/-- The heap of `*centralizedQuota` objects; a Go pointer is an index. -/
abbrev Heap := List centralizedQuota

/-- Source: the `centralizedRule` literal built in `refreshRule`
(centralized_strategy.go lines 365-374).  `quota` is a pointer, modelled
as a heap index. -/
structure centralizedRule where
  quota : Nat
  ruleName : String
  priority : Int
  host : String
  urlPath : String
  httpMethod : String
  serviceName : String
  serviceType : String
deriving DecidableEq, Repr

/-- Source: the `centralizedManifest` struct (fields `Rules`, `Quotas`,
`RefreshedAt` as used throughout centralized_strategy.go and its test).
`Quotas` is a Go map from rule name to `*centralizedQuota`. -/
structure centralizedManifest where
  Rules : List centralizedRule
  Quotas : List (String × Nat)
  RefreshedAt : Int
deriving DecidableEq, Repr

/-- Source: the `CentralizedStrategy` struct.  The fallback
`*LocalizedStrategy` is modelled as an abstract decision function (its
implementation is in a file not under src/); the poller plumbing
(contexts, mutexes, sync.Once) has no sequential content. -/
structure CentralizedStrategy where
  fallback : Request → Decision
  clientID : String
  manifest : centralizedManifest

/-- Go map lookup `m[k]` on an association list. -/
def lookupAssoc (l : List (String × Nat)) (k : String) : Option Nat :=
  match l with
  | [] => none
  | (k', v) :: rest => if k' = k then some v else lookupAssoc rest k

/-- Go map assignment `m[k] = v` (overwrite) on an association list. -/
def insertAssoc (l : List (String × Nat)) (k : String) (v : Nat) :
    List (String × Nat) :=
  match l with
  | [] => [(k, v)]
  | (k', v') :: rest =>
      if k' = k then (k, v) :: rest else (k', v') :: insertAssoc rest k v

/-- Modelled from the spec: the wildcard matcher is not in src/; per §4.F
"`*` matches any run, `?` matches exactly one character". -/
def globMatch : List Char → List Char → Bool
  | [], [] => true
  | '*' :: ps, [] => globMatch ps []
  | '*' :: ps, c :: cs => globMatch ps (c :: cs) || globMatch ('*' :: ps) cs
  | '?' :: ps, _ :: cs => globMatch ps cs
  | p :: ps, c :: cs => p == c && globMatch ps cs
  | _ :: _, [] => false
  | [], _ :: _ => false
termination_by ps cs => (ps.length, cs.length)

/-- Glob match on strings, case-insensitively. -/
def wildcardMatchFold (pattern s : String) : Bool :=
  globMatch (pattern.toList.map Char.toLower) (s.toList.map Char.toLower)

/-- Glob match on strings, case-sensitively (URL paths, spec §4.F). -/
def wildcardMatchExact (pattern s : String) : Bool :=
  globMatch pattern.toList s.toList

/-- Modelled from the spec: `centralizedRule.Match` is not in src/; per
§4.F step 2 all matcher fields must glob-match the request,
"case-insensitive except for URL path". -/
def ruleMatch (r : centralizedRule) (req : Request) : Bool :=
  wildcardMatchFold r.host req.host &&
  wildcardMatchExact r.urlPath req.url &&
  wildcardMatchFold r.httpMethod req.method &&
  wildcardMatchFold r.serviceName req.serviceName &&
  wildcardMatchFold r.serviceType req.serviceType

/-- Modelled from the spec: `centralizedQuota.Sample` is not in src/; per
§4.F step 3: with a live allocation (`now < ttl` and `quota > 0`) take a
per-second token, falling through to a Bernoulli trial on exhaustion;
otherwise borrow at most one sample per second, then Bernoulli.  `bern` is
the outcome of the Bernoulli(fixedRate) trial, supplied as an input to keep
the model deterministic.  `nowSec` is the current wall-clock second. -/
def quotaSample (q : centralizedQuota) (nowSec : Int) (bern : Bool) :
    centralizedQuota × Bool :=
  let q := if q.currentEpoch = nowSec then q
           else { q with currentEpoch := nowSec, used := 0, borrowedEpoch := false }
  if nowSec < q.ttl && q.quota > 0 then
    if q.used < q.quota then
      ({ q with used := q.used + 1, requests := q.requests + 1,
                sampled := q.sampled + 1 }, true)
    else
      ({ q with requests := q.requests + 1,
                sampled := q.sampled + (if bern then 1 else 0) }, bern)
  else
    if !q.borrowedEpoch then
      ({ q with borrowedEpoch := true, requests := q.requests + 1,
                borrowed := q.borrowed + 1, sampled := q.sampled + 1 }, true)
    else
      ({ q with requests := q.requests + 1,
                sampled := q.sampled + (if bern then 1 else 0) }, bern)

/-- Modelled from the spec: `centralizedRule.Sample` is not in src/; it
draws from the rule's reservoir and tags the decision with the rule name. -/
def ruleSample (heap : Heap) (r : centralizedRule) (nowSec : Int)
    (bern : Bool) : Heap × Decision :=
  match heap.get? r.quota with
  | none => (heap, { sampled := false, ruleName := some r.ruleName })
  | some q =>
      let (q', ok) := quotaSample q nowSec bern
      (heap.set r.quota q', { sampled := ok, ruleName := some r.ruleName })

/-- Source: `CentralizedStrategy.ShouldTrace` (centralized_strategy.go
lines 253-271): walk the manifest's rules in order, first match wins and
returns `r.Sample()`; if no rule matches, fall back to the local strategy.
The `manifest == nil` guard in the source is unreachable here: the
constructor always installs a manifest and `setManifest` is only called
with fresh non-nil manifests.  Note that the function performs no check of
`RefreshedAt` against `manifestTTL`. -/
def shouldTrace (s : CentralizedStrategy) (heap : Heap) (nowSec : Int)
    (bern : Bool) (req : Request) : Heap × Decision :=
  match s.manifest.Rules.find? (fun r => ruleMatch r req) with
  | some r => ruleSample heap r nowSec bern
  | none => (heap, s.fallback req)

/-! ## refreshRule (centralized_strategy.go lines 337-398) -/

/-- Source: the fields of `xraySvc.SamplingRule` read by `refreshRule`. -/
structure samplingRuleData where
  RuleName : String
  FixedRate : ℚ
  Priority : Int
  Host : String
  URLPath : String
  HTTPMethod : String
  ServiceName : String
  ServiceType : String
deriving DecidableEq, Repr

/-- Source: `&centralizedQuota{fixedRate: aws.Float64Value(r.FixedRate)}`
— a fresh quota with Go zero values for every other field. -/
def freshQuota (rate : ℚ) : centralizedQuota := { fixedRate := rate }

/-- Accumulator of the page callback in `refreshRule`: the `rules` slice,
the `quotas` map under construction, and the quota heap. -/
structure RefreshAcc where
  rules : List centralizedRule
  quotas : List (String × Nat)
  heap : Heap

/-- Source: the `centralizedRule` literal of `refreshRule` (lines
365-374), with the quota pointer `ref`. -/
def mkRule (rec : samplingRuleData) (ref : Nat) : centralizedRule :=
  { quota := ref
    ruleName := rec.RuleName
    priority := rec.Priority
    host := rec.Host
    urlPath := rec.URLPath
    httpMethod := rec.HTTPMethod
    serviceName := rec.ServiceName
    serviceType := rec.ServiceType }

/-- Source: one iteration of the record loop in `refreshRule` (lines
354-383): look the name up in the OLD manifest's `Quotas`; reuse the
pointer if present, else allocate a fresh borrowed quota; append the rule
and store the pointer under the name. -/
def refreshStep (old : centralizedManifest) (acc : RefreshAcc)
    (rec : samplingRuleData) : RefreshAcc :=
  let name := rec.RuleName
  let (ref, heap') :=
    match lookupAssoc old.Quotas name with
    | some q => (q, acc.heap)
    | none => (acc.heap.length, acc.heap ++ [freshQuota rec.FixedRate])
  { rules := acc.rules ++ [mkRule rec ref]
    quotas := insertAssoc acc.quotas name ref
    heap := heap' }

/-- The record loop of `refreshRule` over a flat record list. -/
def refreshFold (old : centralizedManifest)
    (records : List samplingRuleData) (acc : RefreshAcc) : RefreshAcc :=
  records.foldl (refreshStep old) acc

/-- Modelled from the spec: the `Less` of `centralizedRuleSlice` is not in
src/; per §4.F the rules are sorted by (priority ascending, name
ascending). -/
def ruleLE (a b : centralizedRule) : Prop :=
  a.priority < b.priority ∨ (a.priority = b.priority ∧ a.ruleName ≤ b.ruleName)

instance : DecidableRel ruleLE := fun a b => by
  unfold ruleLE; infer_instance

/-- Source: `sort.Stable(centralizedRuleSlice(rules))`; insertion sort is
stable. -/
def sortRules (l : List centralizedRule) : List centralizedRule :=
  l.insertionSort ruleLE

/-- Source: `CentralizedStrategy.refreshRule` (lines 337-398).  `pages` are
the pages delivered to the `GetSamplingRulesPagesWithContext` callback
before the call returned, and `apiErr` is whether it returned an error: in
Go the callback has already run on the delivered pages when the error
surfaces, and `if err != nil { ...; return }` then leaves `s.manifest`
untouched.  On success the new manifest is published with the sorted rules,
the rebuilt quota map and `RefreshedAt = time.Now()`. -/
def refreshRule (s : CentralizedStrategy) (heap : Heap)
    (pages : List (List samplingRuleData)) (apiErr : Bool) (now : Int) :
    CentralizedStrategy × Heap :=
  let acc := pages.foldl (fun a page => page.foldl (refreshStep s.manifest) a)
    { rules := [], quotas := [], heap := heap }
  if apiErr then (s, acc.heap)
  else
    ({ s with manifest :=
        { Rules := sortRules acc.rules
          Quotas := acc.quotas
          RefreshedAt := now } }, acc.heap)

/-! ## refreshQuota (centralized_strategy.go lines 400-473) -/

/-- Source: the fields of `xraySvc.SamplingStatisticsDocument` filled by
`refreshQuota` (lines 420-427). -/
structure samplingStatisticsData where
  ClientID : String
  RuleName : String
  RequestCount : Int
  SampledCount : Int
  BorrowCount : Int
  Timestamp : Int
deriving DecidableEq, Repr

/-- Source: the fields of `xraySvc.SamplingTargetDocument` read by
`refreshQuota` and `centralizedQuota.Update`. -/
structure samplingTargetData where
  RuleName : String
  ReservoirQuota : Int
  ReservoirQuotaTTL : Int
  FixedRate : ℚ
  Interval : Int
deriving DecidableEq, Repr

/-- Source: the fields of `xraySvc.GetSamplingTargetsOutput` read by
`refreshQuota`: the target documents and `LastRuleModification`
(a timestamp, in seconds). -/
structure getSamplingTargetsData where
  SamplingTargetDocuments : List samplingTargetData
  LastRuleModification : Int
deriving DecidableEq, Repr

/-- Modelled from the spec: `centralizedQuota.Update` is not in src/; per
§4.F the quota poller updates "the reservoir's quota, ttl, fixedRate" from
the target document (the interval is left alone: the source's refreshQuota
carries a `TODO update the interval`).  The concrete outcome is pinned by
TestCentralizedStrategy_refreshQuota. -/
def quotaUpdate (q : centralizedQuota) (doc : samplingTargetData) :
    centralizedQuota :=
  { q with quota := doc.ReservoirQuota
           ttl := doc.ReservoirQuotaTTL
           fixedRate := doc.FixedRate }

/-- Modelled from the spec: `centralizedQuota.Stats` is not in src/; per §3
a statistics document carries clientId, ruleName, requestCount,
sampledCount, borrowCount and a timestamp, taken from the rule's
reservoir counters. -/
def quotaStats (clientID : String) (heap : Heap) (now : Int)
    (r : centralizedRule) : samplingStatisticsData :=
  let q := (heap.get? r.quota).getD {}
  { ClientID := clientID
    RuleName := r.ruleName
    RequestCount := q.requests
    SampledCount := q.sampled
    BorrowCount := q.borrowed
    Timestamp := now }

/-- Source: `const maxTargets = 25` in `refreshQuota`. -/
def maxTargets : Nat := 25

/-- Source: the body of the doc loop in `refreshQuota` (lines 448-460):
for each returned target document whose rule name is in the manifest's
`Quotas` map, mutate that shared quota via `Update`; an unknown name only
raises the `needRefresh` flag, handled by the caller. -/
def applyTargetDocs (quotas : List (String × Nat)) (heap : Heap)
    (docs : List samplingTargetData) : Heap :=
  docs.foldl (fun h doc =>
    match lookupAssoc quotas doc.RuleName with
    | some ref =>
        match h.get? ref with
        | some q => h.set ref (quotaUpdate q doc)
        | none => h
    | none => h) heap

/-- Whether a successful response raises `needRefresh` (lines 448-462):
some returned rule name is unknown locally, or the rules were modified
after the manifest was refreshed. -/
def responseNeedsRefresh (quotas : List (String × Nat)) (refreshedAt : Int)
    (resp : getSamplingTargetsData) : Bool :=
  resp.SamplingTargetDocuments.any
      (fun doc => (lookupAssoc quotas doc.RuleName).isNone) ||
    decide (refreshedAt < resp.LastRuleModification)

/-- Source: the batching loop `for len(stats) > 0` in `refreshQuota`
(lines 435-463).  Each iteration submits the first `min(len, 25)` stats in
one `GetSamplingTargetsWithContext` call and drops them from the queue
before the error check, so a failed call still consumes its batch and the
loop `continue`s.  `responses` holds each call's outcome in order (`none`
is an API error).  Returns the final heap, the accumulated `needRefresh`
flag, and the list of submitted batches (one entry per call made). -/
def targetsLoop (quotas : List (String × Nat)) (refreshedAt : Int) :
    List samplingStatisticsData → List (Option getSamplingTargetsData) →
    Heap → Heap × Bool × List (List samplingStatisticsData)
  | [], _, heap => (heap, false, [])
  | st :: stats, responses, heap =>
      let all := st :: stats
      let l := min all.length maxTargets
      let batch := all.take l
      let rest := all.drop l
      match responses with
      | [] =>
          let (h, n, cs) := targetsLoop quotas refreshedAt rest [] heap
          (h, n, batch :: cs)
      | none :: rs =>
          let (h, n, cs) := targetsLoop quotas refreshedAt rest rs heap
          (h, n, batch :: cs)
      | some resp :: rs =>
          let heap1 := applyTargetDocs quotas heap resp.SamplingTargetDocuments
          let needHere := responseNeedsRefresh quotas refreshedAt resp
          let (h, n, cs) := targetsLoop quotas refreshedAt rest rs heap1
          (h, needHere || n, batch :: cs)
termination_by stats _ _ => stats.length
decreasing_by
  all_goals
    simp [List.length_drop, List.length_cons, maxTargets, Nat.min_def]
    split <;> omega

/-- Source: `CentralizedStrategy.refreshQuota` (lines 400-473): snapshot
one statistics document per manifest rule, submit them in batches of at
most 25, and return whether a rule refresh must be scheduled (`go
s.refreshRule()` is spawned exactly when the flag is true). -/
def refreshQuota (s : CentralizedStrategy) (heap : Heap)
    (responses : List (Option getSamplingTargetsData)) (now : Int) :
    Heap × Bool × List (List samplingStatisticsData) :=
  let stats := s.manifest.Rules.map (quotaStats s.clientID heap now)
  targetsLoop s.manifest.Quotas s.manifest.RefreshedAt stats responses heap

/-! ## AWS-client instrumentation handlers (xrayaws-v2 client.go) -/

/-- One element of a Go error chain as seen by
`errors.As(r.Error, &v)` with `v interface{ StatusCode() int }`: an
element either implements `StatusCode() int` (carrying `some code`) or
does not. -/
structure awsErrorLink where
  statusCode : Option Int
deriving DecidableEq, Repr

/-- A Go error value: its unwrap chain, outermost first.  `Option awsError`
stands for a possibly-nil `error`. -/
structure awsError where
  chain : List awsErrorLink
deriving DecidableEq, Repr

/-- `errors.As` walks the chain and stops at the first element
implementing the target interface. -/
def errorStatusCode (e : awsError) : Option Int :=
  (e.chain.filterMap (fun l => l.statusCode)).head?

/-- Whether a (possibly nil) request error carries HTTP status 429 as seen
by the `errors.As` probe in `afterComplete`. -/
def errCarries429 (rErr : Option awsError) : Bool :=
  match rErr with
  | some e => decide (errorStatusCode e = some 429)
  | none => false

/-- Source: `resp.StatusCode`, `resp.ContentLength` and the
`x-amz-id-2` header read by `afterComplete`. -/
structure httpResponseData where
  StatusCode : Int
  ContentLength : Int
  id2 : String
deriving DecidableEq, Repr

/-- The observable state of one `*xray.Segment` as driven by the xrayaws
handlers.  `closeCount` counts `Close()` invocations (the xray core makes
`Close` idempotent; counting the calls proves the stronger close-once
property of the handlers themselves). -/
structure SegState where
  closeCount : Nat := 0
  throttle : Bool := false
  errorsAdded : List awsError := []
  httpResponse : Option (Int × Int) := none
  awsData : Option (List (String × String)) := none
deriving DecidableEq, Repr

/-- The segment store: Go `*xray.Segment` pointers are indices. -/
def SegWorld : Type := Nat → SegState

/-- Point update of the segment store. -/
def updateSeg (w : SegWorld) (i : Nat) (f : SegState → SegState) : SegWorld :=
  fun j => if j = i then f (w j) else w j

/-- `seg.Close()`. -/
def closeSeg (w : SegWorld) (i : Nat) : SegWorld :=
  updateSeg w i (fun s => { s with closeCount := s.closeCount + 1 })

/-- `seg.AddError(err)`: with a nil error this is a no-op (spec §7). -/
def addErrorSeg (w : SegWorld) (i : Nat) (err : Option awsError) : SegWorld :=
  match err with
  | none => w
  | some e => updateSeg w i (fun s => { s with errorsAdded := s.errorsAdded ++ [e] })

/-- `seg.SetThrottle()`. -/
def setThrottleSeg (w : SegWorld) (i : Nat) : SegWorld :=
  updateSeg w i (fun s => { s with throttle := true })

/-- `seg.SetHTTPResponse(&schema.HTTPResponse{Status, ContentLength})`. -/
def setHTTPResponseSeg (w : SegWorld) (i : Nat) (status len : Int) : SegWorld :=
  updateSeg w i (fun s => { s with httpResponse := some (status, len) })

/-- `seg.SetAWS(awsData)`. -/
def setAWSDataSeg (w : SegWorld) (i : Nat) (d : List (String × String)) :
    SegWorld :=
  updateSeg w i (fun s => { s with awsData := some d })

/-- Source: the `subsegments` struct of xrayaws-v2/client.go.  Each
`(ctx, seg)` pair is set and cleared together in the source, so one
`Option` index stands for both; `awsSeg` is installed by `beforeValidate`
before any other handler runs and is never cleared, so it is a plain
index. -/
structure subsegments where
  awsSeg : Nat
  marshalSeg : Option Nat := none
  attemptSeg : Option Nat := none
  unmarshalSeg : Option Nat := none
deriving DecidableEq, Repr

/-- Source: `subsegments.afterUnmarshalError` (xrayaws-v2/client.go lines
190-199): if the unmarshal pair is already nil, return; otherwise record
`r.Error` on the unmarshal subsegment, close it, and nil the pair. -/
def afterUnmarshalError (w : SegWorld) (segs : subsegments)
    (rErr : Option awsError) : SegWorld × subsegments :=
  match segs.unmarshalSeg with
  | none => (w, segs)
  | some i =>
      (closeSeg (addErrorSeg w i rErr) i, { segs with unmarshalSeg := none })

/-- Source: `subsegments.afterUnmarshal` (xrayaws-v2/client.go lines
210-219): identical body to `afterUnmarshalError`. -/
def afterUnmarshal (w : SegWorld) (segs : subsegments)
    (rErr : Option awsError) : SegWorld × subsegments :=
  match segs.unmarshalSeg with
  | none => (w, segs)
  | some i =>
      (closeSeg (addErrorSeg w i rErr) i, { segs with unmarshalSeg := none })

/-- An invocation of one of the two unmarshal-closing handlers with the
request's error at that moment. -/
inductive UnmarshalCall where
  | normal (rErr : Option awsError)
  | onError (rErr : Option awsError)
deriving DecidableEq, Repr

/-- Dispatch one handler invocation. -/
def applyUnmarshalCall (st : SegWorld × subsegments) (c : UnmarshalCall) :
    SegWorld × subsegments :=
  match c with
  | .normal rErr => afterUnmarshal st.1 st.2 rErr
  | .onError rErr => afterUnmarshalError st.1 st.2 rErr

/-- Run a sequence of unmarshal-handler invocations in order. -/
def runUnmarshalCalls (st : SegWorld × subsegments)
    (cs : List UnmarshalCall) : SegWorld × subsegments :=
  cs.foldl applyUnmarshalCall st

/-- Source: `subsegments.afterComplete` (xrayaws-v2/client.go lines
230-271): close any still-open attempt/marshal/unmarshal subsegment, set
the HTTP response and the aws payload on the aws subsegment, mark it
throttled when `errors.As` finds a wrapped error whose `StatusCode()` is
429 (`http.StatusTooManyRequests`), record `r.Error`, and close it. -/
def afterComplete (w : SegWorld) (segs : subsegments)
    (rErr : Option awsError) (resp : Option httpResponseData)
    (awsData : List (String × String)) : SegWorld × subsegments :=
  let (w, segs) :=
    match segs.attemptSeg with
    | some i => (closeSeg w i, { segs with attemptSeg := none })
    | none => (w, segs)
  let (w, segs) :=
    match segs.marshalSeg with
    | some i => (closeSeg w i, { segs with marshalSeg := none })
    | none => (w, segs)
  let (w, segs) :=
    match segs.unmarshalSeg with
    | some i => (closeSeg w i, { segs with unmarshalSeg := none })
    | none => (w, segs)
  let (w, awsData) :=
    match resp with
    | some r =>
        (setHTTPResponseSeg w segs.awsSeg r.StatusCode r.ContentLength,
         if r.id2 ≠ "" then awsData ++ [("id_2", r.id2)] else awsData)
    | none => (w, awsData)
  let w := setAWSDataSeg w segs.awsSeg awsData
  let w :=
    match rErr with
    | some e =>
        if errorStatusCode e = some 429 then setThrottleSeg w segs.awsSeg else w
    | none => w
  let w := addErrorSeg w segs.awsSeg rErr
  (closeSeg w segs.awsSeg, segs)

/-! ## Whitelist descriptor extraction (xrayaws-v2 client.go) -/

/-- A Go value as seen by the reflection in `getValue` and
`insertDescriptor`.  `strct` lists the exported fields after the leading
blank `_ struct{}` field (the source starts its field scan at index 1). -/
inductive GoValue where
  | str : String → GoValue
  | int : Int → GoValue
  | strct : List (String × GoValue) → GoValue
  | map : List (String × GoValue) → GoValue
  | list : List GoValue → GoValue
  | ptr : GoValue → GoValue
  | nil : GoValue

/-- Field lookup on a struct's field list. -/
def fieldLookup (fields : List (String × GoValue)) (key : String) :
    Option GoValue :=
  match fields with
  | [] => none
  | (k, v) :: rest => if k = key then some v else fieldLookup rest key

/-- Source: `getValue` (xrayaws-v2/client.go lines 360-377): dereference a
pointer once, require a struct, and return the field named `key`
(Go `nil` interface otherwise). -/
def getValue (v : GoValue) (key : String) : GoValue :=
  let v1 := match v with
            | .ptr x => x
            | x => x
  match v1 with
  | .strct fields => (fieldLookup fields key).getD .nil
  | _ => .nil

/-- Source: `whitelist.Descriptor` as used by `insertDescriptor`. -/
structure Descriptor where
  Map : Bool := false
  GetKeys : Bool := false
  List : Bool := false
  GetCount : Bool := false
  RenameTo : String := ""
deriving DecidableEq, Repr

/-- The `schema.AWS` document: a Go map from key to value. -/
abbrev AWSDoc := List (String × GoValue)

/-- `aws.Set(key, value)`: Go map overwrite-insert. -/
def awsSet (doc : AWSDoc) (k : String) (v : GoValue) : AWSDoc :=
  match doc with
  | [] => [(k, v)]
  | (k', v') :: rest =>
      if k' = k then (k, v) :: rest else (k', v') :: awsSet rest k v

/-- `aws.Get(key)`. -/
def awsGet (doc : AWSDoc) (k : String) : Option GoValue :=
  match doc with
  | [] => none
  | (k', v) :: rest => if k' = k then some v else awsGet rest k

/-- Source: `insertDescriptor` (xrayaws-v2/client.go lines 379-411).  For
a `Map` descriptor it stores the list of the map's keys (only when
`GetKeys` is set and the value is a map); for a `List` descriptor, the
length; otherwise the value itself.  Go map iteration order is
unspecified; the model iterates the association list in order, which is
one of the admissible orders. -/
def insertDescriptor (desc : Descriptor) (doc : AWSDoc) (v : GoValue)
    (key : String) : AWSDoc :=
  let renameTo := if desc.RenameTo = "" then key else desc.RenameTo
  let value := getValue v key
  if desc.Map then
    if !desc.GetKeys then doc
    else
      match value with
      | .map entries => awsSet doc renameTo (.list (entries.map (fun e => .str e.1)))
      | _ => doc
  else if desc.List then
    if !desc.GetCount then doc
    else
      match value with
      | .list xs => awsSet doc renameTo (.int (Int.ofNat xs.length))
      | _ => doc
  else awsSet doc renameTo value

/-! ## newXRaySvc (centralized_strategy.go lines 217-246) -/

/-- Static AWS credentials as built by
`credentials.NewStaticCredentials(id, secret, token)`. -/
structure StaticCredentials where
  accessKeyID : String
  secretAccessKey : String
  sessionToken : String
deriving DecidableEq, Repr

/-- An in-flight control-plane request as the Sign handler list sees it:
either still unsigned, or carrying a SigV4 signature. -/
structure SvcRequest where
  operation : String
  signed : Bool
deriving DecidableEq, Repr

/-- A handler on the `Handlers.Sign` list. -/
def SignHandler : Type := SvcRequest → SvcRequest

/-- The SigV4 signer the AWS SDK installs on `Handlers.Sign` by default
(external to this repository): it signs the request. -/
def v4SignHandler : SignHandler := fun r => { r with signed := true }

/-- `x.Handlers.Sign.Clear()`. -/
def clearHandlers (_ : List SignHandler) : List SignHandler := []

/-- The handler pushed by `x.Handlers.Sign.PushBack(func(*request.Request)
{ /* do nothing */ })`. -/
def noopSignHandler : SignHandler := fun r => r

/-- The fields of the constructed X-Ray client that `newXRaySvc`
determines: the session credentials and the Sign handler list. -/
structure XRaySvcClient where
  credentials : StaticCredentials
  signHandlers : List SignHandler

/-- Source: `newXRaySvc` (centralized_strategy.go lines 217-246): build a
session with empty static credentials, then clear the Sign handler list
the SDK installed and push back a single no-op handler.
`initialSign` is whatever the SDK put on the list (by default
`[v4SignHandler]`). -/
def newXRaySvc (initialSign : List SignHandler) : XRaySvcClient :=
  let creds := StaticCredentials.mk "" "" ""
  let sign := initialSign
  let sign := clearHandlers sign
  let sign := sign ++ [noopSignHandler]
  { credentials := creds, signHandlers := sign }

/-- Running a handler list over a request, in order. -/
def runSignHandlers (hs : List SignHandler) (r : SvcRequest) : SvcRequest :=
  hs.foldl (fun r h => h r) r

/-! ## wrap (xrayhttp/wrap.go) -/

/-- The optional `http.ResponseWriter` capabilities: Flusher,
CloseNotifier, Hijacker, Pusher. -/
structure WriterCaps where
  flusher : Bool
  closeNotifier : Bool
  hijacker : Bool
  pusher : Bool
deriving DecidableEq, Repr

/-- Source: `wrap` (xrayhttp/wrap.go): probe the wrapped writer for each
of the four optional interfaces, build the bitmask `n`, and return a
struct embedding exactly the supported interfaces; `none` models the
`panic("unreachable")` at the end of the switch.  The returned
`WriterCaps` records which interfaces the returned value implements. -/
def wrap (rw : WriterCaps) : Option WriterCaps :=
  let n : Nat :=
    (if rw.flusher then 0x1 else 0) |||
    (if rw.closeNotifier then 0x2 else 0) |||
    (if rw.hijacker then 0x4 else 0) |||
    (if rw.pusher then 0x8 else 0)
  match n with
  | 0x0 => some ⟨false, false, false, false⟩
  | 0x1 => some ⟨true, false, false, false⟩
  | 0x2 => some ⟨false, true, false, false⟩
  | 0x3 => some ⟨true, true, false, false⟩
  | 0x4 => some ⟨false, false, true, false⟩
  | 0x5 => some ⟨true, false, true, false⟩
  | 0x6 => some ⟨false, true, true, false⟩
  | 0x7 => some ⟨true, true, true, false⟩
  | 0x8 => some ⟨false, false, false, true⟩
  | 0x9 => some ⟨true, false, false, true⟩
  | 0xa => some ⟨false, true, false, true⟩
  | 0xb => some ⟨true, true, false, true⟩
  | 0xc => some ⟨false, false, true, true⟩
  | 0xd => some ⟨true, false, true, true⟩
  | 0xe => some ⟨false, true, true, true⟩
  | 0xf => some ⟨true, true, true, true⟩
  | _ => none

/-! ## Example inputs used by the witnesses -/

/-- A concrete fallback strategy: always decline, tagged "local". -/
def exampleFallback : Request → Decision :=
  fun _ => { sampled := false, ruleName := some "local" }

/-- A concrete installed manifest. -/
def exampleManifest : centralizedManifest :=
  { Rules := []
    Quotas := [("Old", 0)]
    RefreshedAt := 100 }

/-- A concrete strategy value. -/
def exampleStrategy : CentralizedStrategy :=
  { fallback := exampleFallback
    clientID := "c0ffee"
    manifest := exampleManifest }

/-- A concrete sampling rule as returned by GetSamplingRules (the rule of
end-to-end scenario 4 of the spec). -/
def exampleRuleData : samplingRuleData :=
  { RuleName := "Test"
    FixedRate := 1/2
    Priority := 1
    Host := "example.com"
    URLPath := "*"
    HTTPMethod := "GET"
    ServiceName := "FooBar"
    ServiceType := "AWS::EC2::Instance" }

/-- The descriptor of the map-keys extraction scenario. -/
def mapKeysDescriptor : Descriptor := { Map := true, GetKeys := true }

/-- A struct whose field `Foo` is `map[string]string{"foo":"bar",
"hoge":"fuga"}`. -/
def exampleMapStruct : GoValue :=
  .strct [("Foo", .map [("foo", .str "bar"), ("hoge", .str "fuga")])]

/-- A concrete installed centralized rule named "FooBar" holding the
quota at heap index 0, with catch-all matchers. -/
def exampleCentralizedRule : centralizedRule :=
  { quota := 0
    ruleName := "FooBar"
    priority := 1
    host := "*"
    urlPath := "*"
    httpMethod := "*"
    serviceName := "*"
    serviceType := "*" }

/-- A manifest holding the "FooBar" rule (the quota-refresh scenario). -/
def quotaManifest : centralizedManifest :=
  { Rules := [exampleCentralizedRule]
    Quotas := [("FooBar", 0)]
    RefreshedAt := 100 }

/-- A strategy installed with `quotaManifest`. -/
def quotaStrategy : CentralizedStrategy :=
  { fallback := exampleFallback
    clientID := "c0ffee"
    manifest := quotaManifest }

/-- A targets response naming a rule unknown to `quotaManifest`. -/
def unknownRuleResponse : getSamplingTargetsData :=
  { SamplingTargetDocuments :=
      [{ RuleName := "Unknown"
         ReservoirQuota := 13
         ReservoirQuotaTTL := 1000000000
         FixedRate := 1/2
         Interval := 15 }]
    LastRuleModification := 0 }

/-- A catch-all centralized rule named "Test" holding the quota at heap
index 0. -/
def staleRule : centralizedRule :=
  { quota := 0
    ruleName := "Test"
    priority := 1
    host := "*"
    urlPath := "*"
    httpMethod := "*"
    serviceName := "*"
    serviceType := "*" }

/-- A manifest last refreshed at wall-clock second 0, containing the
catch-all "Test" rule. -/
def staleManifest : centralizedManifest :=
  { Rules := [staleRule]
    Quotas := [("Test", 0)]
    RefreshedAt := 0 }

/-- A strategy whose installed manifest is `staleManifest`. -/
def staleStrategy : CentralizedStrategy :=
  { fallback := exampleFallback
    clientID := "c0ffee"
    manifest := staleManifest }

/-- The heap backing `staleManifest`: one zero-valued quota. -/
def staleHeap : Heap := [{}]

/-- A concrete incoming request. -/
def exampleRequest : Request :=
  { host := "example.com"
    url := "/index.html"
    method := "GET"
    serviceName := "FooBar"
    serviceType := "AWS::EC2::Instance" }

/-! ## Helper lemmas -/

theorem lookupAssoc_insertAssoc_self (l : List (String × Nat)) (k : String)
    (v : Nat) : lookupAssoc (insertAssoc l k v) k = some v := by
  induction l with
  | nil => simp [insertAssoc, lookupAssoc]
  | cons hd tl ih =>
      obtain ⟨k', v'⟩ := hd
      by_cases hk : k' = k
      · simp [insertAssoc, lookupAssoc, hk]
      · simp [insertAssoc, lookupAssoc, hk, ih]

theorem lookupAssoc_insertAssoc_ne (l : List (String × Nat)) (k' k : String)
    (v : Nat) (h : k' ≠ k) :
    lookupAssoc (insertAssoc l k' v) k = lookupAssoc l k := by
  induction l with
  | nil => simp [insertAssoc, lookupAssoc, h]
  | cons hd tl ih =>
      obtain ⟨k0, v0⟩ := hd
      by_cases hk : k0 = k'
      · simp [insertAssoc, lookupAssoc, hk, h]
      · simp only [insertAssoc, hk, if_false, lookupAssoc]
        by_cases hk2 : k0 = k
        · simp [hk2]
        · simp [hk2, ih]

/-! ## Claim theorems -/

/-- Claim C3: for every run of refreshRule in which
GetSamplingRulesPagesWithContext returns an error (including after
consuming some pages), the strategy's manifest field is left unchanged:
the previously installed manifest is still in force. -/
theorem refreshRule_error_preserves_manifest (s : CentralizedStrategy)
    (heap : Heap) (pages : List (List samplingRuleData)) (now : Int)
    (apiErr : Bool) (herr : apiErr = true) :
    (refreshRule s heap pages apiErr now).1.manifest = s.manifest := by
  subst herr
  simp [refreshRule]

/-- Witness for C3 at a concrete strategy, heap and a consumed page. -/
theorem refreshRule_error_preserves_manifest_witness :
    (refreshRule exampleStrategy [{}] [[exampleRuleData]] true 0).1.manifest =
      exampleStrategy.manifest :=
  refreshRule_error_preserves_manifest exampleStrategy [{}] [[exampleRuleData]]
    0 true rfl

/-- Claim C8: for a struct value with a map-typed field `Foo` holding
{"foo":"bar","hoge":"fuga"} and a descriptor with Map and GetKeys set,
`insertDescriptor` stores under key `Foo` a two-element list whose
members are exactly "foo" and "hoge"; if `GetKeys` is false, or the field
value is not a map, nothing is stored. -/
theorem insertDescriptor_map_keys :
    awsGet (insertDescriptor mapKeysDescriptor [] exampleMapStruct "Foo") "Foo" =
      some (.list [.str "foo", .str "hoge"]) ∧
    (∀ desc doc v key, desc.Map = true → desc.GetKeys = false →
      insertDescriptor desc doc v key = doc) ∧
    (∀ desc doc v key, desc.Map = true →
      (∀ entries, getValue v key ≠ .map entries) →
      insertDescriptor desc doc v key = doc) := by
  refine ⟨rfl, ?_, ?_⟩
  · intro desc doc v key hm hk
    simp [insertDescriptor, hm, hk]
  · intro desc doc v key hm hv
    by_cases hk : desc.GetKeys
    · cases hval : getValue v key <;>
        first
          | exact absurd hval (hv _)
          | simp [insertDescriptor, hm, hk, hval]
    · simp [insertDescriptor, hm, hk]

/-- Witness for C8's conditional parts: with `GetKeys` unset, and with a
non-map field value, the document is unchanged. -/
theorem insertDescriptor_map_keys_witness :
    insertDescriptor { Map := true, GetKeys := false } [] exampleMapStruct "Foo"
        = [] ∧
    insertDescriptor mapKeysDescriptor [] (.strct [("Foo", .str "x")]) "Foo"
        = [] := by
  constructor
  · exact insertDescriptor_map_keys.2.1 _ [] exampleMapStruct "Foo" rfl rfl
  · refine insertDescriptor_map_keys.2.2 _ [] _ "Foo" rfl ?_
    intro entries h
    rw [show getValue (GoValue.strct [("Foo", GoValue.str "x")]) "Foo"
          = GoValue.str "x" from rfl] at h
    exact GoValue.noConfusion h

@[simp]
theorem closeSeg_closeCount_self (w : SegWorld) (i : Nat) :
    (closeSeg w i i).closeCount = (w i).closeCount + 1 := by
  simp [closeSeg, updateSeg]

@[simp]
theorem addErrorSeg_closeCount (w : SegWorld) (i : Nat) (e : Option awsError)
    (j : Nat) : (addErrorSeg w i e j).closeCount = (w j).closeCount := by
  cases e with
  | none => rfl
  | some e =>
      simp only [addErrorSeg, updateSeg]
      split <;> rfl

@[simp]
theorem closeSeg_throttle (w : SegWorld) (i j : Nat) :
    (closeSeg w i j).throttle = (w j).throttle := by
  simp only [closeSeg, updateSeg]
  split <;> rfl

@[simp]
theorem addErrorSeg_throttle (w : SegWorld) (i : Nat) (e : Option awsError)
    (j : Nat) : (addErrorSeg w i e j).throttle = (w j).throttle := by
  cases e with
  | none => rfl
  | some e =>
      simp only [addErrorSeg, updateSeg]
      split <;> rfl

@[simp]
theorem setHTTPResponseSeg_throttle (w : SegWorld) (i : Nat) (a b : Int)
    (j : Nat) : (setHTTPResponseSeg w i a b j).throttle = (w j).throttle := by
  simp only [setHTTPResponseSeg, updateSeg]
  split <;> rfl

@[simp]
theorem setAWSDataSeg_throttle (w : SegWorld) (i : Nat)
    (d : List (String × String)) (j : Nat) :
    (setAWSDataSeg w i d j).throttle = (w j).throttle := by
  simp only [setAWSDataSeg, updateSeg]
  split <;> rfl

@[simp]
theorem setThrottleSeg_self (w : SegWorld) (i : Nat) :
    (setThrottleSeg w i i).throttle = true := by
  simp [setThrottleSeg, updateSeg]

/-- Any invocation of either unmarshal handler after the pair has been
nil'd out is a pure no-op. -/
theorem applyUnmarshalCall_noop (w : SegWorld) (segs : subsegments)
    (c : UnmarshalCall) (h : segs.unmarshalSeg = none) :
    applyUnmarshalCall (w, segs) c = (w, segs) := by
  cases c with
  | normal e => simp [applyUnmarshalCall, afterUnmarshal, h]
  | onError e => simp [applyUnmarshalCall, afterUnmarshalError, h]

/-- Running any sequence of unmarshal-handler invocations from a state
with no stored unmarshal segment changes nothing. -/
theorem runUnmarshalCalls_noop (w : SegWorld) (segs : subsegments)
    (h : segs.unmarshalSeg = none) (cs : List UnmarshalCall) :
    runUnmarshalCalls (w, segs) cs = (w, segs) := by
  induction cs with
  | nil => rfl
  | cons c cs ih =>
      show List.foldl applyUnmarshalCall (applyUnmarshalCall (w, segs) c) cs
        = (w, segs)
      rw [applyUnmarshalCall_noop w segs c h]
      exact ih

/-- The first invocation of either handler on a live unmarshal pair
records the error, closes the subsegment, and nils the pair. -/
theorem unmarshal_first_call (w : SegWorld) (segs : subsegments) (i : Nat)
    (hseg : segs.unmarshalSeg = some i) (c : UnmarshalCall) :
    ∃ e, applyUnmarshalCall (w, segs) c =
      (closeSeg (addErrorSeg w i e) i, { segs with unmarshalSeg := none }) := by
  cases c with
  | normal e =>
      exact ⟨e, by simp [applyUnmarshalCall, afterUnmarshal, hseg]⟩
  | onError e =>
      exact ⟨e, by simp [applyUnmarshalCall, afterUnmarshalError, hseg]⟩

/-- Claim C6: at most one of afterUnmarshal / afterUnmarshalError closes
the unmarshal subsegment: any invocation after the stored reference has
been nil'd out is a no-op, and for any non-empty sequence of invocations
of the two handlers (in any order, with repetitions) the subsegment
receives exactly one Close call and the stored reference ends up nil. -/
theorem unmarshal_close_once :
    (∀ (w : SegWorld) (segs : subsegments) (c : UnmarshalCall),
        segs.unmarshalSeg = none → applyUnmarshalCall (w, segs) c = (w, segs)) ∧
    (∀ (w : SegWorld) (segs : subsegments) (i : Nat)
        (cs : List UnmarshalCall), segs.unmarshalSeg = some i → cs ≠ [] →
        ((runUnmarshalCalls (w, segs) cs).1 i).closeCount
            = (w i).closeCount + 1 ∧
        (runUnmarshalCalls (w, segs) cs).2.unmarshalSeg = none) := by
  refine ⟨applyUnmarshalCall_noop, ?_⟩
  intro w segs i cs hseg hcs
  match cs with
  | [] => exact absurd rfl hcs
  | c :: cs' =>
      obtain ⟨e, happ⟩ := unmarshal_first_call w segs i hseg c
      have hrun : runUnmarshalCalls (w, segs) (c :: cs') =
          (closeSeg (addErrorSeg w i e) i, { segs with unmarshalSeg := none }) := by
        show List.foldl applyUnmarshalCall (applyUnmarshalCall (w, segs) c) cs'
          = _
        rw [happ]
        exact runUnmarshalCalls_noop _ _ rfl cs'
      rw [hrun]
      simp

/-- Witness for C6: a repeated invocation sequence
(afterUnmarshal, then afterUnmarshalError, then afterUnmarshal again)
closes the unmarshal subsegment exactly once. -/
theorem unmarshal_close_once_witness :
    ((runUnmarshalCalls (fun _ => {}, { awsSeg := 0, unmarshalSeg := some 3 })
        [.normal none, .onError none, .normal none]).1 3).closeCount
      = ((fun _ => ({} : SegState)) 3).closeCount + 1 ∧
    (runUnmarshalCalls (fun _ => {}, { awsSeg := 0, unmarshalSeg := some 3 })
        [.normal none, .onError none, .normal none]).2.unmarshalSeg = none :=
  unmarshal_close_once.2 (fun _ => {}) { awsSeg := 0, unmarshalSeg := some 3 }
    3 [.normal none, .onError none, .normal none] rfl (by simp)

/-- Claim C7: the completion handler marks the aws-namespaced subsegment
throttled exactly when the request's error carries HTTP status 429; for
every other status, and when there is no error, the handler leaves the
throttle flag unset. -/
theorem afterComplete_throttle (w : SegWorld) (segs : subsegments)
    (rErr : Option awsError) (resp : Option httpResponseData)
    (awsData : List (String × String))
    (h : (w segs.awsSeg).throttle = false) :
    (((afterComplete w segs rErr resp awsData).1) segs.awsSeg).throttle
      = errCarries429 rErr := by
  obtain ⟨aw, ms, att, us⟩ := segs
  simp only at h ⊢
  unfold afterComplete
  cases att <;> cases ms <;> cases us <;> cases resp <;> cases rErr <;>
    · simp only [errCarries429]
      first
        | (split <;> simp_all)
        | simp_all

/-- Witness for C7: a 429-carrying error sets the throttle flag. -/
theorem afterComplete_throttle_witness :
    (((afterComplete (fun _ => {}) { awsSeg := 0 }
        (some { chain := [{ statusCode := some 429 }] }) none []).1) 0).throttle
      = errCarries429 (some { chain := [{ statusCode := some 429 }] }) :=
  afterComplete_throttle (fun _ => {}) { awsSeg := 0 }
    (some { chain := [{ statusCode := some 429 }] }) none [] rfl

/-- The submitted batches of the targets loop: each has at most 25
documents, their concatenation is the full statistics list, and there is
one batch per 25 documents, rounded up. -/
theorem targetsLoop_calls (q : List (String × Nat)) (ra : Int) :
    ∀ (fuel : Nat) (stats : List samplingStatisticsData)
      (responses : List (Option getSamplingTargetsData)) (heap : Heap),
      stats.length ≤ fuel →
      (∀ b ∈ (targetsLoop q ra stats responses heap).2.2, b.length ≤ 25) ∧
      (targetsLoop q ra stats responses heap).2.2.flatten = stats ∧
      (targetsLoop q ra stats responses heap).2.2.length
          = (stats.length + 24) / 25 := by
  intro fuel
  induction fuel with
  | zero =>
      intro stats responses heap hle
      have hnil : stats = [] := List.eq_nil_of_length_eq_zero (Nat.le_zero.mp hle)
      subst hnil
      rw [targetsLoop]
      simp
  | succ n ih =>
      intro stats responses heap hle
      cases stats with
      | nil => rw [targetsLoop]; simp
      | cons st stats' =>
          have hrest : ((st :: stats').drop
              (min (st :: stats').length maxTargets)).length ≤ n := by
            simp only [List.length_drop, List.length_cons, maxTargets]
            simp only [List.length_cons] at hle
            omega
          have harith : ∀ cs : List (List samplingStatisticsData),
              cs.length = (((st :: stats').drop
                  (min (st :: stats').length maxTargets)).length + 24) / 25 →
              (cs.length + 1) = ((st :: stats').length + 24) / 25 := by
            intro cs hcs
            simp only [List.length_drop, List.length_cons, maxTargets] at hcs ⊢
            omega
          have hbatch : ((st :: stats').take
              (min (st :: stats').length maxTargets)).length ≤ 25 := by
            simp only [List.length_take, List.length_cons, maxTargets]
            omega
          cases responses with
          | nil =>
              rw [targetsLoop]
              obtain ⟨h1, h2, h3⟩ := ih _ ([] : List (Option getSamplingTargetsData)) heap hrest
              refine ⟨?_, ?_, ?_⟩
              · intro b hb
                rcases List.mem_cons.mp hb with hb | hb
                · subst hb; exact hbatch
                · exact h1 b hb
              · simp only [List.flatten_cons, h2]
                exact List.take_append_drop _ _
              · simpa using harith _ h3
          | cons o rs =>
              cases o with
              | none =>
                  rw [targetsLoop]
                  obtain ⟨h1, h2, h3⟩ := ih _ rs heap hrest
                  refine ⟨?_, ?_, ?_⟩
                  · intro b hb
                    rcases List.mem_cons.mp hb with hb | hb
                    · subst hb; exact hbatch
                    · exact h1 b hb
                  · simp only [List.flatten_cons, h2]
                    exact List.take_append_drop _ _
                  · simpa using harith _ h3
              | some resp =>
                  rw [targetsLoop]
                  obtain ⟨h1, h2, h3⟩ := ih _ rs
                    (applyTargetDocs q heap resp.SamplingTargetDocuments) hrest
                  refine ⟨?_, ?_, ?_⟩
                  · intro b hb
                    rcases List.mem_cons.mp hb with hb | hb
                    · subst hb; exact hbatch
                    · exact h1 b hb
                  · simp only [List.flatten_cons, h2]
                    exact List.take_append_drop _ _
                  · simpa using harith _ h3

/-- Claim C5: for every run of refreshQuota over a manifest with n rules,
each GetSamplingTargetsWithContext call carries at most 25 statistics
documents, every rule's statistics document is submitted in exactly one
call (the concatenation of the submitted batches, in order, is the full
per-rule statistics list), and the number of calls is ceil(n/25), written
(n + 24) / 25 in natural division — in particular zero calls for an empty
manifest. -/
theorem refreshQuota_batching (s : CentralizedStrategy) (heap : Heap)
    (responses : List (Option getSamplingTargetsData)) (now : Int) :
    (∀ b ∈ (refreshQuota s heap responses now).2.2, b.length ≤ 25) ∧
    (refreshQuota s heap responses now).2.2.flatten
        = s.manifest.Rules.map (quotaStats s.clientID heap now) ∧
    (refreshQuota s heap responses now).2.2.length
        = (s.manifest.Rules.length + 24) / 25 := by
  have h := targetsLoop_calls s.manifest.Quotas s.manifest.RefreshedAt
      (s.manifest.Rules.map (quotaStats s.clientID heap now)).length
      (s.manifest.Rules.map (quotaStats s.clientID heap now)) responses heap
      le_rfl
  simpa [refreshQuota, List.length_map] using h

/-- A successful targets response demands a rule refresh exactly when it
names a rule unknown to the manifest or was modified after the manifest's
refresh time. -/
theorem responseNeedsRefresh_iff (q : List (String × Nat)) (ra : Int)
    (resp : getSamplingTargetsData) :
    responseNeedsRefresh q ra resp = true ↔
      ((∃ doc ∈ resp.SamplingTargetDocuments,
          lookupAssoc q doc.RuleName = none) ∨
        ra < resp.LastRuleModification) := by
  simp [responseNeedsRefresh, Option.isNone_iff_eq_none]

/-- The needRefresh flag of the targets loop is the disjunction of
`responseNeedsRefresh` over the successful responses. -/
theorem targetsLoop_needRefresh (q : List (String × Nat)) (ra : Int) :
    ∀ (fuel : Nat) (stats : List samplingStatisticsData)
      (responses : List (Option getSamplingTargetsData)) (heap : Heap),
      stats.length ≤ fuel →
      responses.length = (stats.length + 24) / 25 →
      ((targetsLoop q ra stats responses heap).2.1 = true ↔
        ∃ resp, some resp ∈ responses ∧ responseNeedsRefresh q ra resp = true) := by
  intro fuel
  induction fuel with
  | zero =>
      intro stats responses heap hle hlen
      have hnil : stats = [] := List.eq_nil_of_length_eq_zero (Nat.le_zero.mp hle)
      subst hnil
      have : responses = [] := List.eq_nil_of_length_eq_zero (by simpa using hlen)
      subst this
      rw [targetsLoop]
      simp
  | succ n ih =>
      intro stats responses heap hle hlen
      cases stats with
      | nil =>
          have hr : responses = [] :=
            List.eq_nil_of_length_eq_zero (by simpa using hlen)
          subst hr
          rw [targetsLoop]
          simp
      | cons st stats' =>
          have hrest : ((st :: stats').drop
              (min (st :: stats').length maxTargets)).length ≤ n := by
            simp only [List.length_drop, List.length_cons, maxTargets]
            simp only [List.length_cons] at hle
            omega
          cases responses with
          | nil =>
              exfalso
              simp only [List.length_nil, List.length_cons] at hlen
              omega
          | cons o rs =>
              have hlen' : rs.length = (((st :: stats').drop
                  (min (st :: stats').length maxTargets)).length + 24) / 25 := by
                simp only [List.length_cons, List.length_drop, maxTargets] at hlen ⊢
                omega
              cases o with
              | none =>
                  rw [targetsLoop]
                  have h := ih _ rs heap hrest hlen'
                  simp only [h]
                  constructor
                  · rintro ⟨resp, hmem, hp⟩
                    exact ⟨resp, List.mem_cons_of_mem _ hmem, hp⟩
                  · rintro ⟨resp, hmem, hp⟩
                    rcases List.mem_cons.mp hmem with hbad | hmem
                    · exact Option.noConfusion hbad
                    · exact ⟨resp, hmem, hp⟩
              | some resp0 =>
                  rw [targetsLoop]
                  have h := ih _ rs
                    (applyTargetDocs q heap resp0.SamplingTargetDocuments)
                    hrest hlen'
                  simp only [Bool.or_eq_true, h]
                  constructor
                  · rintro (hp | ⟨resp, hmem, hp⟩)
                    · exact ⟨resp0, List.mem_cons_self _ _, hp⟩
                    · exact ⟨resp, List.mem_cons_of_mem _ hmem, hp⟩
                  · rintro ⟨resp, hmem, hp⟩
                    rcases List.mem_cons.mp hmem with heq | hmem
                    · exact Or.inl (by rw [← Option.some_inj.mp heq]; exact hp)
                    · exact Or.inr ⟨resp, hmem, hp⟩

/-- Claim C4: refreshQuota schedules an immediate rule refresh exactly
when some successful GetSamplingTargets response contains a rule name
absent from the manifest's Quotas map or a LastRuleModification later
than the manifest's RefreshedAt.  `responses` holds one entry per call
made, so its length is the number of batches. -/
theorem refreshQuota_schedules_rule_refresh (s : CentralizedStrategy)
    (heap : Heap) (responses : List (Option getSamplingTargetsData))
    (now : Int)
    (hlen : responses.length = (s.manifest.Rules.length + 24) / 25) :
    ((refreshQuota s heap responses now).2.1 = true ↔
      ∃ resp, some resp ∈ responses ∧
        ((∃ doc ∈ resp.SamplingTargetDocuments,
            lookupAssoc s.manifest.Quotas doc.RuleName = none) ∨
          s.manifest.RefreshedAt < resp.LastRuleModification)) := by
  have h := targetsLoop_needRefresh s.manifest.Quotas s.manifest.RefreshedAt
      (s.manifest.Rules.map (quotaStats s.clientID heap now)).length
      (s.manifest.Rules.map (quotaStats s.clientID heap now)) responses heap
      le_rfl (by simpa using hlen)
  rw [refreshQuota]
  rw [h]
  constructor
  · rintro ⟨resp, hmem, hp⟩
    exact ⟨resp, hmem, (responseNeedsRefresh_iff _ _ _).mp hp⟩
  · rintro ⟨resp, hmem, hp⟩
    exact ⟨resp, hmem, (responseNeedsRefresh_iff _ _ _).mpr hp⟩

/-- Claim C9: the X-Ray control-plane client constructed by `newXRaySvc`
performs unsigned requests: empty static (anonymous) credentials, the
Sign handler list cleared, the only Sign handler a no-op, so no signing
step runs for any control-plane request. -/
theorem newXRaySvc_unsigned (initialSign : List SignHandler) (r : SvcRequest) :
    (newXRaySvc initialSign).credentials = StaticCredentials.mk "" "" "" ∧
    (newXRaySvc initialSign).signHandlers = [noopSignHandler] ∧
    runSignHandlers (newXRaySvc initialSign).signHandlers r = r :=
  ⟨rfl, rfl, rfl⟩

/-- Claim C10: for every underlying http.ResponseWriter, `wrap` returns a
value implementing each of Flusher, CloseNotifier, Hijacker, Pusher
exactly when the wrapped writer does (all 16 combinations), and the final
`panic("unreachable")` branch is never reached. -/
theorem wrap_capabilities (rw : WriterCaps) : wrap rw = some rw := by
  obtain ⟨f, c, h, p⟩ := rw
  cases f <;> cases c <;> cases h <;> cases p <;> rfl

/-- The record loop of refreshRule only appends to the quota heap. -/
theorem refreshFold_heap_extends (old : centralizedManifest) :
    ∀ (records : List samplingRuleData) (acc : RefreshAcc),
      ∃ ext, (refreshFold old records acc).heap = acc.heap ++ ext := by
  intro records
  induction records with
  | nil => exact fun acc => ⟨[], by simp [refreshFold]⟩
  | cons r rs ih =>
      intro acc
      obtain ⟨ext, hext⟩ := ih (refreshStep old acc r)
      have hstep : refreshFold old (r :: rs) acc
          = refreshFold old rs (refreshStep old acc r) := rfl
      rw [hstep, hext]
      cases hl : lookupAssoc old.Quotas r.RuleName with
      | some q => exact ⟨ext, by simp [refreshStep, hl]⟩
      | none =>
          refine ⟨freshQuota r.FixedRate :: ext, ?_⟩
          simp [refreshStep, hl]

/-- The record loop of refreshRule only appends to the rules slice. -/
theorem refreshFold_rules_extends (old : centralizedManifest) :
    ∀ (records : List samplingRuleData) (acc : RefreshAcc),
      ∃ ext, (refreshFold old records acc).rules = acc.rules ++ ext := by
  intro records
  induction records with
  | nil => exact fun acc => ⟨[], by simp [refreshFold]⟩
  | cons r rs ih =>
      intro acc
      obtain ⟨ext, hext⟩ := ih (refreshStep old acc r)
      have hstep : refreshFold old (r :: rs) acc
          = refreshFold old rs (refreshStep old acc r) := rfl
      rw [hstep, hext]
      cases hl : lookupAssoc old.Quotas r.RuleName with
      | some q =>
          refine ⟨mkRule r q :: ext, ?_⟩
          simp [refreshStep, hl]
      | none =>
          refine ⟨mkRule r acc.heap.length :: ext, ?_⟩
          simp [refreshStep, hl]

/-- Record names not processed by the loop keep their lookup result in the
quota map under construction. -/
theorem refreshFold_lookup_other (old : centralizedManifest) :
    ∀ (records : List samplingRuleData) (acc : RefreshAcc) (k : String),
      (∀ r ∈ records, r.RuleName ≠ k) →
      lookupAssoc (refreshFold old records acc).quotas k
        = lookupAssoc acc.quotas k := by
  intro records
  induction records with
  | nil => intro acc k _; rfl
  | cons r rs ih =>
      intro acc k hk
      have hstep : refreshFold old (r :: rs) acc
          = refreshFold old rs (refreshStep old acc r) := rfl
      rw [hstep, ih _ k (fun r' hr' => hk r' (List.mem_cons_of_mem _ hr'))]
      have hr : r.RuleName ≠ k := hk r (List.mem_cons_self _ _)
      cases hl : lookupAssoc old.Quotas r.RuleName with
      | some q => simp [refreshStep, hl, lookupAssoc_insertAssoc_ne _ _ _ _ hr]
      | none => simp [refreshStep, hl, lookupAssoc_insertAssoc_ne _ _ _ _ hr]

/-- The step never shrinks the heap. -/
theorem refreshStep_heap_le (old : centralizedManifest) (acc : RefreshAcc)
    (r : samplingRuleData) :
    acc.heap.length ≤ (refreshStep old acc r).heap.length := by
  cases hl : lookupAssoc old.Quotas r.RuleName with
  | some q => simp [refreshStep, hl]
  | none => simp [refreshStep, hl]

/-- Per-record guarantee of the refreshRule record loop: every processed
record ends up with a quota pointer that is the old manifest's pointer for
that name when one exists, and a freshly allocated borrowed quota
otherwise; the rule built from the record, holding that pointer, is in the
rules slice, and the pointer is stored in the quota map under the name. -/
theorem refreshFold_mem (old : centralizedManifest) :
    ∀ (records : List samplingRuleData) (acc : RefreshAcc)
      (rec : samplingRuleData), rec ∈ records →
      (records.map (fun r => r.RuleName)).Nodup →
      ∃ ref,
        lookupAssoc (refreshFold old records acc).quotas rec.RuleName
            = some ref ∧
        mkRule rec ref ∈ (refreshFold old records acc).rules ∧
        (match lookupAssoc old.Quotas rec.RuleName with
         | some oldRef => ref = oldRef
         | none =>
             (refreshFold old records acc).heap.get? ref
                 = some (freshQuota rec.FixedRate) ∧
             acc.heap.length ≤ ref) := by
  intro records
  induction records with
  | nil => intro acc rec h; exact absurd h (List.not_mem_nil rec)
  | cons r rs ih =>
      intro acc rec hmem hnodup
      have hstep : refreshFold old (r :: rs) acc
          = refreshFold old rs (refreshStep old acc r) := rfl
      rcases List.mem_cons.mp hmem with heq | hmem'
      · subst heq
        have hfar : ∀ r' ∈ rs, r'.RuleName ≠ rec.RuleName := by
          intro r' hr' hcontra
          have : rec.RuleName ∈ rs.map (fun r => r.RuleName) :=
            List.mem_map.mpr ⟨r', hr', hcontra⟩
          exact (List.nodup_cons.mp (by simpa using hnodup)).1 this
        obtain ⟨hext, hheapext⟩ :=
          refreshFold_heap_extends old rs (refreshStep old acc rec)
        obtain ⟨rext, hrulesext⟩ :=
          refreshFold_rules_extends old rs (refreshStep old acc rec)
        have hlook := refreshFold_lookup_other old rs
          (refreshStep old acc rec) rec.RuleName hfar
        rw [hstep]
        cases hl : lookupAssoc old.Quotas rec.RuleName with
        | some oldRef =>
            refine ⟨oldRef, ?_, ?_, ?_⟩
            · rw [hlook]
              simp [refreshStep, hl, lookupAssoc_insertAssoc_self]
            · rw [hrulesext]
              refine List.mem_append_left _ ?_
              simp [refreshStep, hl]
            · simp [hl]
        | none =>
            refine ⟨acc.heap.length, ?_, ?_, ?_⟩
            · rw [hlook]
              simp [refreshStep, hl, lookupAssoc_insertAssoc_self]
            · rw [hrulesext]
              refine List.mem_append_left _ ?_
              simp [refreshStep, hl]
            · simp only [hl]
              constructor
              · rw [hheapext]
                have hlt : acc.heap.length
                    < (refreshStep old acc rec).heap.length := by
                  simp [refreshStep, hl]
                rw [List.get?_append hlt]
                simp [refreshStep, hl]
              · exact le_rfl
      · have hnodup' : (rs.map (fun r => r.RuleName)).Nodup :=
          (List.nodup_cons.mp (by simpa using hnodup)).2
        obtain ⟨ref, hlook, hrule, hbranch⟩ :=
          ih (refreshStep old acc r) rec hmem' hnodup'
        refine ⟨ref, by rw [hstep]; exact hlook, by rw [hstep]; exact hrule, ?_⟩
        cases hl : lookupAssoc old.Quotas rec.RuleName with
        | some oldRef => simpa [hl] using hbranch
        | none =>
            simp only [hl] at hbranch ⊢
            exact ⟨by rw [hstep]; exact hbranch.1,
              le_trans (refreshStep_heap_le old acc r) hbranch.2⟩

/-- Claim C2: for every successful run of refreshRule and every rule name
returned by GetSamplingRules (names assumed pairwise distinct, as rule
names are unique on the control plane): if the previous manifest's Quotas
map contains that name, the new manifest's rule and Quotas entry hold the
identical centralizedQuota pointer and the quota object's counters are
untouched; otherwise they hold a freshly allocated quota whose fixedRate
is the server-provided FixedRate and whose quota is zero. -/
theorem refreshRule_quota_reuse (s : CentralizedStrategy) (heap : Heap)
    (pages : List (List samplingRuleData)) (now : Int)
    (rec : samplingRuleData) (hmem : rec ∈ pages.flatten)
    (hnodup : (pages.flatten.map (fun r => r.RuleName)).Nodup)
    (hwf : ∀ nm ref, lookupAssoc s.manifest.Quotas nm = some ref →
      ref < heap.length) :
    ∃ ref,
      lookupAssoc (refreshRule s heap pages false now).1.manifest.Quotas
          rec.RuleName = some ref ∧
      mkRule rec ref ∈ (refreshRule s heap pages false now).1.manifest.Rules ∧
      (match lookupAssoc s.manifest.Quotas rec.RuleName with
       | some oldRef => ref = oldRef ∧
           (refreshRule s heap pages false now).2.get? ref = heap.get? ref
       | none => ∃ q, (refreshRule s heap pages false now).2.get? ref = some q ∧
           q.fixedRate = rec.FixedRate ∧ q.quota = 0) := by
  have hacc : pages.foldl (fun a page => page.foldl (refreshStep s.manifest) a)
        (RefreshAcc.mk [] [] heap)
      = refreshFold s.manifest pages.flatten (RefreshAcc.mk [] [] heap) :=
    (List.foldl_flatten _ _ _).symm
  obtain ⟨ref, hlook, hrule, hbranch⟩ :=
    refreshFold_mem s.manifest pages.flatten (RefreshAcc.mk [] [] heap)
      rec hmem hnodup
  obtain ⟨hext, hheapext⟩ :=
    refreshFold_heap_extends s.manifest pages.flatten (RefreshAcc.mk [] [] heap)
  refine ⟨ref, ?_, ?_, ?_⟩
  · simpa [refreshRule, hacc] using hlook
  · simp only [refreshRule, hacc]
    simp only [Bool.false_eq_true, if_false]
    simpa [sortRules] using hrule
  · cases hl : lookupAssoc s.manifest.Quotas rec.RuleName with
    | some oldRef =>
        simp only [hl] at hbranch
        subst hbranch
        refine ⟨rfl, ?_⟩
        simp only [refreshRule, hacc, Bool.false_eq_true, if_false]
        rw [hheapext]
        exact List.get?_append (hwf rec.RuleName ref hl)
    | none =>
        simp only [hl] at hbranch
        refine ⟨freshQuota rec.FixedRate, ?_, rfl, rfl⟩
        simp only [refreshRule, hacc, Bool.false_eq_true, if_false]
        exact hbranch.1

/-- Witness for C2: refreshing with the scenario-4 rule "Test", absent
from the previously installed manifest, installs a fresh borrowed quota
for it. -/
theorem refreshRule_quota_reuse_witness :
    ∃ ref,
      lookupAssoc (refreshRule exampleStrategy [{}] [[exampleRuleData]]
          false 200).1.manifest.Quotas exampleRuleData.RuleName = some ref ∧
      mkRule exampleRuleData ref ∈
        (refreshRule exampleStrategy [{}] [[exampleRuleData]]
          false 200).1.manifest.Rules ∧
      (match lookupAssoc exampleStrategy.manifest.Quotas
          exampleRuleData.RuleName with
       | some oldRef => ref = oldRef ∧
           (refreshRule exampleStrategy [{}] [[exampleRuleData]]
             false 200).2.get? ref = ([{}] : Heap).get? ref
       | none => ∃ q,
           (refreshRule exampleStrategy [{}] [[exampleRuleData]]
             false 200).2.get? ref = some q ∧
           q.fixedRate = exampleRuleData.FixedRate ∧ q.quota = 0) := by
  refine refreshRule_quota_reuse exampleStrategy [{}] [[exampleRuleData]] 200
    exampleRuleData (by simp) (by simp) ?_
  intro nm ref h
  by_cases ho : "Old" = nm
  · simp [exampleStrategy, exampleManifest, lookupAssoc, ho] at h
    simp only [List.length_cons, List.length_nil]
    omega
  · simp [exampleStrategy, exampleManifest, lookupAssoc, ho] at h

/-- Witness for C4: a response naming a rule unknown to the manifest makes
refreshQuota schedule a rule refresh. -/
theorem refreshQuota_schedules_rule_refresh_witness :
    ((refreshQuota quotaStrategy [{}] [some unknownRuleResponse] 0).2.1 = true ↔
      ∃ resp, some resp ∈ [some unknownRuleResponse] ∧
        ((∃ doc ∈ resp.SamplingTargetDocuments,
            lookupAssoc quotaStrategy.manifest.Quotas doc.RuleName = none) ∨
          quotaStrategy.manifest.RefreshedAt < resp.LastRuleModification)) :=
  refreshQuota_schedules_rule_refresh quotaStrategy [{}]
    [some unknownRuleResponse] 0 (by decide)

/-- A sole `*` pattern glob-matches any text. -/
theorem globMatch_star (cs : List Char) : globMatch ['*'] cs = true := by
  induction cs with
  | nil => rw [globMatch]; rw [globMatch]
  | cons c cs ih => rw [globMatch]; simp [ih, globMatch]

/-- A sole `*` pattern matches any string, case-insensitively. -/
theorem wildcardMatchFold_star (s : String) : wildcardMatchFold "*" s = true := by
  have h : ("*".toList.map Char.toLower) = ['*'] := by decide
  rw [wildcardMatchFold, h]
  exact globMatch_star _

/-- A sole `*` pattern matches any string, case-sensitively. -/
theorem wildcardMatchExact_star (s : String) :
    wildcardMatchExact "*" s = true := by
  have h : ("*".toList) = ['*'] := by decide
  rw [wildcardMatchExact, h]
  exact globMatch_star _

/-- Claim C1 (evaluation at the failing input): the claim FAILS on the
code.  `ShouldTrace` never consults `manifestTTL`: with a manifest
refreshed at wall-clock second 0 and a request arriving at second 5000 —
more than `manifestTTL` seconds later — it still returns the stale
manifest's rule decision (tagged "Test"), not the fallback
LocalizedStrategy's decision.  The declared-but-unread `manifestTTL`
constant and the spec agree on the intended expiry, making this a slip in
the code. -/
theorem shouldTrace_stale_manifest_ignores_ttl :
    manifestTTL < 5000 - staleStrategy.manifest.RefreshedAt ∧
    (shouldTrace staleStrategy staleHeap 5000 false exampleRequest).2.ruleName
        = some "Test" ∧
    (shouldTrace staleStrategy staleHeap 5000 false exampleRequest).2
        ≠ staleStrategy.fallback exampleRequest := by
  have hmatch : ruleMatch staleRule exampleRequest = true := by
    simp [ruleMatch, staleRule, wildcardMatchFold_star, wildcardMatchExact_star]
  have hfind : staleStrategy.manifest.Rules.find?
      (fun r => ruleMatch r exampleRequest) = some staleRule := by
    simp [staleStrategy, staleManifest, hmatch]
  have heval : (shouldTrace staleStrategy staleHeap 5000 false exampleRequest).2
      = { sampled := true, ruleName := some "Test" } := by
    rw [shouldTrace, hfind]
    rfl
  refine ⟨by decide, by rw [heval], by rw [heval]; decide⟩

end XRaySDK
